import Mathlib

/-!
Verification development for the go2pdb pipeline (`go2pdb/__main__.py`).

The repository source contains the CLI driver (`build_parser`, `do_blast`,
`do_search`, `main`).  The blast core it calls (`blast.build_fasta`,
`blast.build_db`, `blast.run_blast`) is not part of the provided source
tree, so those operations are modelled from the specification
(sections 4.1 and 4.3): corpus building with conflict detection, scoring of
raw alignment hits via the Jaccard-style union denominator, OR-filtering
against the two cutoffs, and per-pair deduplication.  The dispatch logic of
`main` and the effect ordering of `do_blast` are embedded directly from the
source.
-/

namespace Go2PDB

/-- Modelled from the spec: one row of search output consumed by the
corpus builder (`blast.build_fasta` is missing from the source tree).
Only the fields the corpus builder reads are kept: structure ID, chain ID
and the optional chain sequence. -/
structure SearchRecord where
  structure_id : String
  chain_id : String
  sequence : Option String
deriving Repr, DecidableEq

/-- The deduplication key of a row: its (structure ID, chain ID) pair. -/
def SearchRecord.key (r : SearchRecord) : String × String :=
  (r.structure_id, r.chain_id)

/-- Modelled from the spec: a row lacking a usable sequence (missing or
empty) is skipped by the corpus builder. -/
def usableSeq : Option String → Option String
  | none => none
  | some s => if s = "" then none else some s

/-- Modelled from the spec: the error raised when two input rows map to the
same sequence label but carry different content; it reports the shared
label together with both conflicting sequences. -/
structure ConflictingSequenceError where
  structure_id : String
  chain_id : String
  first_sequence : String
  second_sequence : String
deriving Repr, DecidableEq

/-- Association-list lookup on (structure ID, chain ID) keys. -/
def lookupKey (k : String × String) :
    List ((String × String) × String) → Option String
  | [] => none
  | (k', s) :: rest => if k' = k then some s else lookupKey k rest

/-- One FASTA-style record: a label encoding the (structure ID, chain ID)
pair followed by the sequence. -/
def fastaRecord (k : String × String) (s : String) : String :=
  ">" ++ k.1 ++ "_" ++ k.2 ++ "\n" ++ s ++ "\n"

/-- Modelled from the spec: the recursive pass of the corpus builder.
Rows without a usable sequence are skipped; a row whose key is already
bound to a different sequence raises `ConflictingSequenceError`; a row
whose key is already bound to the same sequence adds nothing new. -/
def buildFastaGo :
    List SearchRecord → List ((String × String) × String) →
    Except ConflictingSequenceError (List ((String × String) × String))
  | [], acc => .ok acc
  | r :: rest, acc =>
    match usableSeq r.sequence with
    | none => buildFastaGo rest acc
    | some s =>
      match lookupKey r.key acc with
      | some s' =>
        if s' = s then buildFastaGo rest acc
        else .error ⟨r.structure_id, r.chain_id, s', s⟩
      | none => buildFastaGo rest (acc ++ [(r.key, s)])

/-- Modelled from the spec: `blast.build_fasta` — convert the search table
into one FASTA text blob, one labeled record per usable row, failing with
`ConflictingSequenceError` on two rows with the same key and different
sequences. -/
def build_fasta (rows : List SearchRecord) :
    Except ConflictingSequenceError String :=
  (buildFastaGo rows []).map
    (fun entries => String.join (entries.map (fun e => fastaRecord e.1 e.2)))

/-- The labeled record a single row contributes, if any. -/
def entryOf (r : SearchRecord) : Option ((String × String) × String) :=
  (usableSeq r.sequence).map (fun s => (r.key, s))

/-- Modelled from the spec: one pairwise alignment result parsed from the
raw output of the external alignment tool. -/
structure RawHit where
  query : String
  target : String
  query_length : Nat
  target_length : Nat
  aligned_length : Nat
  identical_positions : Nat
  similar_positions : Nat
deriving Repr, DecidableEq

/-- Modelled from the spec: the Jaccard-style denominator
`query_length + target_length - aligned_length`. -/
def unionSize (h : RawHit) : ℚ :=
  (h.query_length : ℚ) + (h.target_length : ℚ) - (h.aligned_length : ℚ)

/-- Modelled from the spec: a raw hit augmented with the two derived
metrics. -/
structure ScoredHit where
  query : String
  target : String
  identity : ℚ
  similarity : ℚ
deriving Repr, DecidableEq

/-- Modelled from the spec: derive identity and similarity from a raw hit
using the union-size denominator. -/
def scoreHit (h : RawHit) : ScoredHit :=
  { query := h.query
    target := h.target
    identity := (h.identical_positions : ℚ) / unionSize h
    similarity := (h.similar_positions : ℚ) / unionSize h }

/-- Modelled from the spec: a hit is retained when either metric clears its
cutoff (inclusive comparison, logical OR). -/
def keepHit (ic sc : ℚ) (h : ScoredHit) : Bool :=
  decide (ic ≤ h.identity) || decide (sc ≤ h.similarity)

/-- Modelled from the spec: the cutoff filter over scored hits. -/
def filterHits (ic sc : ℚ) (l : List ScoredHit) : List ScoredHit :=
  l.filter (keepHit ic sc)

/-- Two scored hits concern the same (query, target) label pair. -/
def SamePair (a b : ScoredHit) : Prop :=
  a.query = b.query ∧ a.target = b.target

instance (a b : ScoredHit) : Decidable (SamePair a b) := by
  unfold SamePair; infer_instance

/-- Modelled from the spec: insert one scored hit into the deduplicated
accumulator.  If its (query, target) pair is already present, the
occurrence with the higher identity wins; otherwise it is appended. -/
def insertHit (acc : List ScoredHit) (h : ScoredHit) : List ScoredHit :=
  if acc.any (fun x => decide (SamePair x h)) then
    acc.map (fun x => if SamePair x h ∧ x.identity < h.identity then h else x)
  else acc ++ [h]

/-- Modelled from the spec: per-(query, target) deduplication, keeping the
highest-identity occurrence and preserving first-occurrence order. -/
def dedupHits (l : List ScoredHit) : List ScoredHit :=
  l.foldl insertHit []

/-- Modelled from the spec: the scoring/filtering portion of
`blast.run_blast` — score every parsed raw hit, retain those clearing
either cutoff, and deduplicate by (query, target) pair. -/
def run_blast (raw : List RawHit) (ic sc : ℚ) : List ScoredHit :=
  dedupHits (filterHits ic sc (raw.map scoreHit))

/-! The dispatch of `main` (source lines 282-290): the parsed argument
namespace is inspected with `hasattr` for the hidden per-subcommand marker
attributes `do_search`, `do_blast` and `do_cluster`, in that order, and
the `cluster` branch raises `NotImplementedError("cluster")`. -/

/-- Which marker attributes exist on the parsed argument namespace.  The
`search` subparser installs `do_search`, the `blast` subparser installs
`do_blast` and the `cluster` subparser installs `do_cluster`; each
subcommand installs exactly its own marker. -/
structure ArgNamespace where
  hasDoSearch : Bool
  hasDoBlast : Bool
  hasDoCluster : Bool
deriving Repr, DecidableEq

/-- What `main` does after parsing. -/
inductive MainOutcome where
  | ranSearch
  | ranBlast
  | raisedNotImplemented (msg : String)
  | printedHelp
deriving Repr, DecidableEq

/-- The `hasattr` dispatch chain of `main`. -/
def mainDispatch (a : ArgNamespace) : MainOutcome :=
  if a.hasDoSearch then .ranSearch
  else if a.hasDoBlast then .ranBlast
  else if a.hasDoCluster then .raisedNotImplemented "cluster"
  else .printedHelp

/-- The argument namespace produced by parsing the `cluster` subcommand:
only the `do_cluster` marker attribute is present. -/
def clusterArgs : ArgNamespace :=
  { hasDoSearch := false, hasDoBlast := false, hasDoCluster := true }

/-! The effect ordering of `do_blast` (source lines 166-201), over an
explicit filesystem state.  The external collaborators `pd.read_excel`,
`blast.build_db` and the external-invocation half of `blast.run_blast`
are injected as operations, as the spec's design notes direct. -/

/-- A filesystem as a path-to-contents map; the most recent write wins. -/
def FS := List (String × String)

/-- Read the contents at a path, if the file exists. -/
def FS.read (fs : FS) (p : String) : Option String :=
  match fs with
  | [] => none
  | (p', c) :: rest => if p' = p then some c else FS.read rest p

/-- Write contents to a path (creating or overwriting the file). -/
def FS.write (fs : FS) (p c : String) : FS :=
  (p, c) :: fs

/-- The failures `do_blast` can propagate. -/
inductive BlastError where
  | readInput
  | conflictingSequence (e : ConflictingSequenceError)
  | databaseBuild
  | alignmentRun
deriving Repr, DecidableEq

/-- The injected external collaborators of `do_blast`: reading the search
spreadsheet, `blast.build_db`, and the external invocation plus parse half
of `blast.run_blast` (which may also persist the raw output verbatim at
the optional save path).  The two external steps return the filesystem
they leave behind together with their outcome, so partial writes before a
failure are expressible. -/
structure BlastOps where
  read_excel : FS → String → Except BlastError (List SearchRecord)
  build_db : FS → String → String → FS × Option BlastError
  run_blast_ext :
    FS → String → String → Option String → FS × Except BlastError (List RawHit)

/-- The arguments `do_blast` consumes from the parsed namespace. -/
structure BlastArgs where
  blast_input_path : String
  blast_output_path : String
  fasta_path : Option String
  blast_db_dir : Option String
  blast_raw_output : Option String
  blast_identity_cutoff : ℚ
  blast_similarity_cutoff : ℚ

/-- Serialization of the result table by `df.to_excel`; the core treats
the written bytes as opaque. -/
def excelEncode (l : List ScoredHit) : String :=
  toString (repr l)

/-- The effect ordering of `do_blast`: read the search table, build the
corpus, write it to the fasta path (explicit or run-scoped temporary),
build the database, run the alignment, and only then persist the result
table at the blast output path.  The final filesystem is returned together
with the outcome, so the state at the moment an error propagates is
visible. -/
def do_blast (ops : BlastOps) (tempDirName : String) (args : BlastArgs)
    (fs : FS) : FS × Except BlastError Unit :=
  match ops.read_excel fs args.blast_input_path with
  | .error e => (fs, .error e)
  | .ok table =>
    match build_fasta table with
    | .error e => (fs, .error (.conflictingSequence e))
    | .ok fasta =>
      let fastaPath := args.fasta_path.getD (tempDirName ++ "/sequences.fasta")
      let fs1 := fs.write fastaPath fasta
      let blastDir := args.blast_db_dir.getD tempDirName
      match ops.build_db fs1 fastaPath blastDir with
      | (fs2, some e) => (fs2, .error e)
      | (fs2, none) =>
        match ops.run_blast_ext fs2 fastaPath blastDir args.blast_raw_output with
        | (fs3, .error e) => (fs3, .error e)
        | (fs3, .ok raw) =>
          let df :=
            run_blast raw args.blast_identity_cutoff args.blast_similarity_cutoff
          (fs3.write args.blast_output_path (excelEncode df), .ok ())

/-! Helper lemmas. -/

lemma samePair_refl (a : ScoredHit) : SamePair a a := ⟨rfl, rfl⟩

lemma samePair_symm {a b : ScoredHit} (h : SamePair a b) : SamePair b a :=
  ⟨h.1.symm, h.2.symm⟩

lemma samePair_trans {a b c : ScoredHit} (h1 : SamePair a b)
    (h2 : SamePair b c) : SamePair a c :=
  ⟨h1.1.trans h2.1, h1.2.trans h2.2⟩

/-- No two entries of the list concern the same (query, target) pair. -/
def DistinctPairs (l : List ScoredHit) : Prop :=
  l.Pairwise (fun a b => ¬ SamePair a b)

lemma insertHit_distinct {acc : List ScoredHit} (h : ScoredHit)
    (hacc : DistinctPairs acc) : DistinctPairs (insertHit acc h) := by
  unfold insertHit
  split
  · unfold DistinctPairs at *
    rw [List.pairwise_map]
    refine List.Pairwise.imp ?_ hacc
    intro a b hab
    by_cases ha : SamePair a h ∧ a.identity < h.identity <;>
      by_cases hb : SamePair b h ∧ b.identity < h.identity
    · exact absurd (samePair_trans ha.1 (samePair_symm hb.1)) hab
    · rw [if_pos ha, if_neg hb]
      intro hhb
      exact hab (samePair_trans ha.1 hhb)
    · rw [if_neg ha, if_pos hb]
      intro hah
      exact hab (samePair_trans hah (samePair_symm hb.1))
    · rw [if_neg ha, if_neg hb]
      exact hab
  · rename_i hany
    unfold DistinctPairs at *
    rw [List.pairwise_append]
    refine ⟨hacc, List.pairwise_singleton _ _, ?_⟩
    intro a ha b hb
    rw [List.mem_singleton] at hb
    subst hb
    intro hcontra
    exact hany (List.any_eq_true.mpr ⟨a, ha, decide_eq_true hcontra⟩)

lemma foldl_insert_distinct (l : List ScoredHit) :
    ∀ acc, DistinctPairs acc → DistinctPairs (l.foldl insertHit acc) := by
  induction l with
  | nil => intro acc hacc; exact hacc
  | cons y ys ih => intro acc hacc; exact ih _ (insertHit_distinct y hacc)

lemma dedupHits_distinct (l : List ScoredHit) : DistinctPairs (dedupHits l) :=
  foldl_insert_distinct l [] List.Pairwise.nil

lemma foldl_insert_mem (l : List ScoredHit) :
    ∀ (acc : List ScoredHit) (y : ScoredHit),
      ((∃ x ∈ acc, SamePair x y ∧ y.identity ≤ x.identity) ∨ y ∈ l) →
      ∃ x ∈ l.foldl insertHit acc, SamePair x y ∧ y.identity ≤ x.identity := by
  induction l with
  | nil =>
    intro acc y hy
    rcases hy with h | h
    · exact h
    · cases h
  | cons z zs ih =>
    intro acc y hy
    rw [List.foldl_cons]
    apply ih
    rcases hy with ⟨x, hx, hpair, hid⟩ | hmem
    · left
      unfold insertHit
      split
      · refine ⟨if SamePair x z ∧ x.identity < z.identity then z else x,
          List.mem_map_of_mem _ hx, ?_⟩
        by_cases hc : SamePair x z ∧ x.identity < z.identity
        · rw [if_pos hc]
          exact ⟨samePair_trans (samePair_symm hc.1) hpair,
            le_trans hid (le_of_lt hc.2)⟩
        · rw [if_neg hc]
          exact ⟨hpair, hid⟩
      · exact ⟨x, List.mem_append_left _ hx, hpair, hid⟩
    · rcases List.mem_cons.mp hmem with rfl | hmem'
      · left
        unfold insertHit
        split
        · rename_i hany
          rcases List.any_eq_true.mp hany with ⟨x, hx, hxy⟩
          have hxy' : SamePair x y := of_decide_eq_true hxy
          refine ⟨if SamePair x y ∧ x.identity < y.identity then y else x,
            List.mem_map_of_mem _ hx, ?_⟩
          by_cases hc : SamePair x y ∧ x.identity < y.identity
          · rw [if_pos hc]
            exact ⟨samePair_refl y, le_refl _⟩
          · rw [if_neg hc]
            refine ⟨hxy', ?_⟩
            push_neg at hc
            exact hc hxy'
        · exact ⟨y, List.mem_append_right _ (List.mem_singleton_self y),
            samePair_refl y, le_refl _⟩
      · right
        exact hmem'

lemma dedupHits_mem {l : List ScoredHit} {y : ScoredHit} (hy : y ∈ l) :
    ∃ x ∈ dedupHits l, SamePair x y ∧ y.identity ≤ x.identity :=
  foldl_insert_mem l [] y (Or.inr hy)

lemma lookupKey_append_some {k : String × String} {v : String}
    {l1 l2 : List ((String × String) × String)}
    (h : lookupKey k l1 = some v) : lookupKey k (l1 ++ l2) = some v := by
  induction l1 with
  | nil => cases h
  | cons e rest ih =>
    obtain ⟨k', s⟩ := e
    by_cases hk : k' = k
    · simp only [lookupKey, if_pos hk] at h
      simp only [List.cons_append, lookupKey, if_pos hk]
      exact h
    · simp only [lookupKey, if_neg hk] at h
      simp only [List.cons_append, lookupKey, if_neg hk]
      exact ih h

lemma lookupKey_append_none {k : String × String}
    {l1 : List ((String × String) × String)}
    (l2 : List ((String × String) × String))
    (h : lookupKey k l1 = none) : lookupKey k (l1 ++ l2) = lookupKey k l2 := by
  induction l1 with
  | nil => rfl
  | cons e rest ih =>
    obtain ⟨k', s⟩ := e
    by_cases hk : k' = k
    · simp only [lookupKey, if_pos hk] at h
      cases h
    · simp only [lookupKey, if_neg hk] at h
      simp only [List.cons_append, lookupKey, if_neg hk]
      exact ih h

lemma buildFastaGo_conflict_acc :
    ∀ (rows : List SearchRecord) (acc : List ((String × String) × String)),
      (∃ b ∈ rows, ∃ s s', usableSeq b.sequence = some s ∧
          lookupKey b.key acc = some s' ∧ s' ≠ s) →
      ∃ e, buildFastaGo rows acc = .error e := by
  intro rows
  induction rows with
  | nil =>
    rintro acc ⟨b, hb, -⟩
    cases hb
  | cons r rest ih =>
    rintro acc ⟨b, hb, s, s', hus, hlk, hne⟩
    rcases List.mem_cons.mp hb with rfl | hbrest
    · simp only [buildFastaGo, hus, hlk, if_neg hne]
      exact ⟨_, rfl⟩
    · cases hu : usableSeq r.sequence with
      | none =>
        simp only [buildFastaGo, hu]
        exact ih acc ⟨b, hbrest, s, s', hus, hlk, hne⟩
      | some t =>
        cases hl : lookupKey r.key acc with
        | some t' =>
          by_cases het : t' = t
          · simp only [buildFastaGo, hu, hl, if_pos het]
            exact ih acc ⟨b, hbrest, s, s', hus, hlk, hne⟩
          · simp only [buildFastaGo, hu, hl, if_neg het]
            exact ⟨_, rfl⟩
        | none =>
          simp only [buildFastaGo, hu, hl]
          exact ih _ ⟨b, hbrest, s, s', hus, lookupKey_append_some hlk, hne⟩

lemma buildFastaGo_conflict :
    ∀ (xs : List SearchRecord) (a : SearchRecord) (ys : List SearchRecord)
      (b : SearchRecord) (zs : List SearchRecord)
      (acc : List ((String × String) × String)) (sa sb : String),
      a.key = b.key → usableSeq a.sequence = some sa →
      usableSeq b.sequence = some sb → sa ≠ sb →
      ∃ e, buildFastaGo (xs ++ a :: ys ++ b :: zs) acc = .error e := by
  intro xs
  induction xs with
  | nil =>
    intro a ys b zs acc sa sb hk ha hb hne
    rw [List.nil_append]
    cases hl : lookupKey a.key acc with
    | some s' =>
      by_cases hes : s' = sa
      · simp only [buildFastaGo, ha, hl, if_pos hes]
        apply buildFastaGo_conflict_acc
        refine ⟨b, ?_, sb, s', hb, ?_, ?_⟩
        · simp
        · rw [← hk]
          exact hl
        · rw [hes]
          exact hne
      · simp only [buildFastaGo, ha, hl, if_neg hes]
        exact ⟨_, rfl⟩
    | none =>
      simp only [buildFastaGo, ha, hl]
      apply buildFastaGo_conflict_acc
      refine ⟨b, ?_, sb, sa, hb, ?_, hne⟩
      · simp
      · rw [← hk, lookupKey_append_none _ hl]
        simp [lookupKey]
  | cons x xs' ih =>
    intro a ys b zs acc sa sb hk ha hb hne
    rw [List.cons_append]
    cases hu : usableSeq x.sequence with
    | none =>
      simp only [buildFastaGo, hu]
      exact ih a ys b zs acc sa sb hk ha hb hne
    | some t =>
      cases hl : lookupKey x.key acc with
      | some t' =>
        by_cases het : t' = t
        · simp only [buildFastaGo, hu, hl, if_pos het]
          exact ih a ys b zs acc sa sb hk ha hb hne
        · simp only [buildFastaGo, hu, hl, if_neg het]
          exact ⟨_, rfl⟩
      | none =>
        simp only [buildFastaGo, hu, hl]
        exact ih a ys b zs _ sa sb hk ha hb hne

lemma buildFastaGo_nodup :
    ∀ (rows : List SearchRecord) (acc : List ((String × String) × String)),
      rows.Pairwise (fun r1 r2 => r1.key ≠ r2.key) →
      (∀ r ∈ rows, lookupKey r.key acc = none) →
      buildFastaGo rows acc = .ok (acc ++ rows.filterMap entryOf) := by
  intro rows
  induction rows with
  | nil =>
    intro acc _ _
    simp [buildFastaGo]
  | cons r rest ih =>
    intro acc hpw hlk
    have hpw' := (List.pairwise_cons.mp hpw).2
    have hhd := (List.pairwise_cons.mp hpw).1
    cases hu : usableSeq r.sequence with
    | none =>
      simp only [buildFastaGo, hu]
      rw [ih acc hpw' (fun r' hr' => hlk r' (List.mem_cons_of_mem _ hr'))]
      simp [entryOf, hu]
    | some s =>
      simp only [buildFastaGo, hu, hlk r (List.mem_cons_self _ _)]
      rw [ih (acc ++ [(r.key, s)]) hpw' ?_]
      · simp [entryOf, hu]
      · intro r' hr'
        rw [lookupKey_append_none _ (hlk r' (List.mem_cons_of_mem _ hr'))]
        have hne : r.key ≠ r'.key := hhd r' hr'
        simp [lookupKey, hne]

/-! Claim theorems. -/

/-- C1: the scoring step computes
`union_size = query_length + target_length - aligned_length` and derives
`identity = identical_positions / union_size` and
`similarity = similar_positions / union_size`; for
query_length=100, target_length=100, aligned_length=100, identical=90,
similar=95 it yields identity=0.90 and similarity=0.95. -/
theorem scoring_uses_union_denominator :
    (∀ h : RawHit,
        (scoreHit h).identity =
          (h.identical_positions : ℚ) /
            ((h.query_length : ℚ) + (h.target_length : ℚ) -
              (h.aligned_length : ℚ)) ∧
        (scoreHit h).similarity =
          (h.similar_positions : ℚ) /
            ((h.query_length : ℚ) + (h.target_length : ℚ) -
              (h.aligned_length : ℚ))) ∧
    (scoreHit ⟨"Q", "T", 100, 100, 100, 90, 95⟩).identity = 9 / 10 ∧
    (scoreHit ⟨"Q", "T", 100, 100, 100, 90, 95⟩).similarity = 19 / 20 := by
  refine ⟨fun h => ⟨rfl, rfl⟩, ?_, ?_⟩ <;> norm_num [scoreHit, unionSize]

/-- C2: the filter retains a hit if and only if
identity ≥ identity_cutoff OR similarity ≥ similarity_cutoff (inclusive
comparison, logical OR); in particular a hit with identity 0.85 and
similarity 0.70 is retained under cutoffs (0.8, 0.8). -/
theorem filter_or_semantics :
    (∀ (ic sc : ℚ) (l : List ScoredHit) (h : ScoredHit),
        h ∈ filterHits ic sc l ↔
          h ∈ l ∧ (ic ≤ h.identity ∨ sc ≤ h.similarity)) ∧
    filterHits (4/5) (4/5) [scoreHit ⟨"Q", "T", 100, 100, 100, 85, 70⟩] =
      [scoreHit ⟨"Q", "T", 100, 100, 100, 85, 70⟩] := by
  constructor
  · intro ic sc l h
    simp [filterHits, keepHit, List.mem_filter]
  · norm_num [filterHits, keepHit, List.filter, scoreHit, unionSize]

/-- C3: with both cutoffs set to exactly 0, every parsed hit is retained
by the filter (a zero cutoff means "retain everything"), given the
alignment invariant that the aligned length does not exceed the combined
sequence lengths. -/
theorem zero_cutoffs_retain_all (raw : List RawHit)
    (hlen : ∀ h ∈ raw, h.aligned_length ≤ h.query_length + h.target_length) :
    filterHits 0 0 (raw.map scoreHit) = raw.map scoreHit := by
  apply List.filter_eq_self.mpr
  intro x hx
  rcases List.mem_map.mp hx with ⟨h, hh, rfl⟩
  have hc : (h.aligned_length : ℚ) ≤ (h.query_length : ℚ) + (h.target_length : ℚ) := by
    exact_mod_cast hlen h hh
  have hden : (0 : ℚ) ≤ unionSize h := by
    unfold unionSize; linarith
  have hid : (0 : ℚ) ≤ (scoreHit h).identity := by
    unfold scoreHit
    exact div_nonneg (by positivity) hden
  simp only [keepHit, Bool.or_eq_true, decide_eq_true_eq]
  exact Or.inl hid

/-- C3 witness: under cutoffs (0, 0) a hit with identity = similarity = 0.0
is retained. -/
theorem zero_cutoffs_retain_all_witness :
    filterHits 0 0 ([⟨"Q", "T", 100, 100, 100, 0, 0⟩].map scoreHit) =
      [⟨"Q", "T", 100, 100, 100, 0, 0⟩].map scoreHit :=
  zero_cutoffs_retain_all [⟨"Q", "T", 100, 100, 100, 0, 0⟩] (by decide)

/-- C4: in the filtered output every (query, target) pair appears at most
once; every retained hit is represented by a same-pair output hit of at
least its identity (so the highest-identity occurrence wins); and for two
raw hits on one pair with identities 0.6 and 0.9 under cutoffs 0.5 the
output is exactly the single hit with identity 0.9. -/
theorem output_deduplicated :
    (∀ (raw : List RawHit) (ic sc : ℚ),
        (run_blast raw ic sc).Pairwise (fun a b => ¬ SamePair a b)) ∧
    (∀ (raw : List RawHit) (ic sc : ℚ) (y : ScoredHit),
        y ∈ filterHits ic sc (raw.map scoreHit) →
        ∃ x ∈ run_blast raw ic sc, SamePair x y ∧ y.identity ≤ x.identity) ∧
    run_blast [⟨"Q", "T", 100, 100, 100, 60, 60⟩,
        ⟨"Q", "T", 100, 100, 100, 90, 90⟩] (1/2) (1/2) =
      [scoreHit ⟨"Q", "T", 100, 100, 100, 90, 90⟩] := by
  refine ⟨fun raw ic sc => dedupHits_distinct _,
    fun raw ic sc y hy => dedupHits_mem hy, ?_⟩
  norm_num [run_blast, filterHits, keepHit, List.filter, dedupHits,
    insertHit, List.any, SamePair, scoreHit, unionSize]

/-- C4 witness: for the duplicated pair above, the retained-hit clause
produces a same-pair output hit dominating the identity-0.6 occurrence. -/
theorem output_deduplicated_witness :
    ∃ x ∈ run_blast [⟨"Q", "T", 100, 100, 100, 60, 60⟩,
        ⟨"Q", "T", 100, 100, 100, 90, 90⟩] (1/2) (1/2),
      SamePair x (scoreHit ⟨"Q", "T", 100, 100, 100, 60, 60⟩) ∧
        (scoreHit ⟨"Q", "T", 100, 100, 100, 60, 60⟩).identity ≤ x.identity :=
  output_deduplicated.2.1 _ (1/2) (1/2) _
    (by norm_num [filterHits, keepHit, List.filter, scoreHit, unionSize])

/-- C7: a self-paired hit (query label equal to target label) that clears
either cutoff appears in the filtered output like any other hit — the
output contains a hit with its (self-paired) labels. -/
theorem self_pairs_preserved (raw : List RawHit) (ic sc : ℚ) (h : RawHit)
    (hmem : h ∈ raw) (hself : h.query = h.target)
    (hkeep : ic ≤ (scoreHit h).identity ∨ sc ≤ (scoreHit h).similarity) :
    ∃ h' ∈ run_blast raw ic sc,
      h'.query = h.query ∧ h'.target = h.target ∧ h'.query = h'.target := by
  have hy : scoreHit h ∈ filterHits ic sc (raw.map scoreHit) := by
    apply List.mem_filter.mpr
    refine ⟨List.mem_map_of_mem _ hmem, ?_⟩
    simpa [keepHit] using hkeep
  rcases dedupHits_mem hy with ⟨x, hx, hpair, _⟩
  have hq : x.query = h.query := hpair.1
  have ht : x.target = h.target := hpair.2
  exact ⟨x, hx, hq, ht, by rw [hq, ht, hself]⟩

/-- C7 witness: a concrete self-pair hit clearing the identity cutoff is
present in the output. -/
theorem self_pairs_preserved_witness :
    ∃ h' ∈ run_blast [⟨"1ABC_A", "1ABC_A", 100, 100, 100, 90, 90⟩] (4/5) (4/5),
      h'.query = "1ABC_A" ∧ h'.target = "1ABC_A" ∧ h'.query = h'.target :=
  self_pairs_preserved [⟨"1ABC_A", "1ABC_A", 100, 100, 100, 90, 90⟩] (4/5) (4/5)
    ⟨"1ABC_A", "1ABC_A", 100, 100, 100, 90, 90⟩ (List.mem_singleton_self _) rfl
    (Or.inl (by norm_num [scoreHit, unionSize]))

/-- C5: whenever the search table contains two rows mapping to the same
(structure ID, chain ID) pair with different (usable) sequences, the
corpus builder raises `ConflictingSequenceError`; on the minimal such
table the error reports the shared label together with both conflicting
sequences. -/
theorem conflicting_rows_error :
    (∀ (xs ys zs : List SearchRecord) (a b : SearchRecord) (sa sb : String),
        a.key = b.key → usableSeq a.sequence = some sa →
        usableSeq b.sequence = some sb → sa ≠ sb →
        ∃ e, build_fasta (xs ++ a :: ys ++ b :: zs) = .error e) ∧
    (∀ (a b : SearchRecord) (sa sb : String),
        a.key = b.key → usableSeq a.sequence = some sa →
        usableSeq b.sequence = some sb → sa ≠ sb →
        build_fasta [a, b] =
          .error ⟨b.structure_id, b.chain_id, sa, sb⟩) := by
  constructor
  · intro xs ys zs a b sa sb hk ha hb hne
    rcases buildFastaGo_conflict xs a ys b zs [] sa sb hk ha hb hne with ⟨e, he⟩
    refine ⟨e, ?_⟩
    unfold build_fasta
    rw [he]
    rfl
  · intro a b sa sb hk ha hb hne
    have h1 : lookupKey a.key ([] : List ((String × String) × String)) = none := rfl
    have h2 : lookupKey b.key [(a.key, sa)] = some sa := by
      simp [lookupKey, hk]
    simp only [build_fasta, buildFastaGo, ha, h1, List.nil_append, hb, h2,
      if_neg hne]
    rfl

/-- C5 witness: two rows sharing structure ID "1ABC" and chain "A" with
sequences "AAA" and "BBB" raise the error carrying both sequences. -/
theorem conflicting_rows_error_witness :
    build_fasta [⟨"1ABC", "A", some "AAA"⟩, ⟨"1ABC", "A", some "BBB"⟩] =
      .error ⟨"1ABC", "A", "AAA", "BBB"⟩ :=
  conflicting_rows_error.2 ⟨"1ABC", "A", some "AAA"⟩ ⟨"1ABC", "A", some "BBB"⟩
    "AAA" "BBB" rfl rfl rfl (by decide)

/-- C6: on a search table whose (structure ID, chain ID) pairs are unique,
the corpus builder succeeds and emits exactly one labeled record per row
with a usable (non-empty) sequence, and no record for rows whose sequence
is empty or missing. -/
theorem unique_rows_corpus (rows : List SearchRecord)
    (hpw : rows.Pairwise (fun r1 r2 => r1.key ≠ r2.key)) :
    build_fasta rows =
      .ok (String.join
        ((rows.filterMap entryOf).map (fun e => fastaRecord e.1 e.2))) := by
  unfold build_fasta
  rw [buildFastaGo_nodup rows [] hpw (fun r _ => rfl)]
  rfl

/-- C6 witness: a three-row table (one usable sequence, one missing, one
empty) yields exactly the single record of the usable row. -/
theorem unique_rows_corpus_witness :
    build_fasta [⟨"1ABC", "A", some "MKV"⟩, ⟨"2XYZ", "B", none⟩,
        ⟨"3QQQ", "C", some ""⟩] =
      .ok ">1ABC_A\nMKV\n" :=
  (unique_rows_corpus
    [⟨"1ABC", "A", some "MKV"⟩, ⟨"2XYZ", "B", none⟩, ⟨"3QQQ", "C", some ""⟩]
    (by decide)).trans rfl

/-- C9: the clustering stage is an unimplemented stub: whenever the parsed
arguments carry the cluster marker (and no earlier subcommand marker),
`main` raises NotImplementedError("cluster") rather than producing
output. -/
theorem cluster_always_raises (a : ArgNamespace)
    (hc : a.hasDoCluster = true) (hs : a.hasDoSearch = false)
    (hb : a.hasDoBlast = false) :
    mainDispatch a = .raisedNotImplemented "cluster" := by
  simp [mainDispatch, hs, hb, hc]

/-- C9 witness: parsing the cluster subcommand yields exactly the cluster
marker, and `main` raises on it. -/
theorem cluster_always_raises_witness :
    mainDispatch clusterArgs = .raisedNotImplemented "cluster" :=
  cluster_always_raises clusterArgs rfl rfl rfl

lemma FS.read_write_ne (fs : FS) {p q : String} (c : String) (h : p ≠ q) :
    (fs.write p c).read q = fs.read q := by
  simp [FS.write, FS.read, h]

/-- External operations for the aliasing counterexample: the search table
reads fine and has one usable row, but the database build fails. -/
def opsFailDB : BlastOps :=
  { read_excel := fun _ _ => .ok [⟨"1ABC", "A", some "MKVL"⟩]
    build_db := fun fsa _ _ => (fsa, some .databaseBuild)
    run_blast_ext := fun fsa _ _ _ => (fsa, .error .alignmentRun) }

/-- Arguments that alias the fasta path with the blast output path. -/
def argsAliased : BlastArgs :=
  { blast_input_path := "search-output.xlsx"
    blast_output_path := "blast-output.xlsx"
    fasta_path := some "blast-output.xlsx"
    blast_db_dir := some "db"
    blast_raw_output := none
    blast_identity_cutoff := 4/5
    blast_similarity_cutoff := 4/5 }

/-- C10 counterexample: when `--fasta-path` is the blast output path and
the database build raises, `do_blast` ends in error yet has already
created/modified the file at the blast output path (the fasta text was
written there before the failing stage), so the output location is not
left unchanged. -/
theorem do_blast_error_modifies_output_cex :
    (do_blast opsFailDB "/tmp/run" argsAliased []).2 =
      .error .databaseBuild ∧
    (do_blast opsFailDB "/tmp/run" argsAliased []).1.read "blast-output.xlsx" =
      some ">1ABC_A\nMKVL\n" ∧
    FS.read [] "blast-output.xlsx" = none := by
  refine ⟨rfl, ?_, rfl⟩
  rfl

/-- C10 amended: if the (explicit or temporary) fasta path differs from
the blast output path and the external database-build and alignment-run
steps leave the file at the blast output path unchanged, then whenever a
stage raises, `do_blast` leaves the output location unchanged — the
result table is persisted only after the alignment run returns. -/
theorem do_blast_error_preserves_output (ops : BlastOps)
    (tempDirName : String) (args : BlastArgs) (fs : FS)
    (hfasta :
      args.fasta_path.getD (tempDirName ++ "/sequences.fasta") ≠
        args.blast_output_path)
    (hdb : ∀ fsa fp bd, (ops.build_db fsa fp bd).1.read args.blast_output_path =
        fsa.read args.blast_output_path)
    (hrun : ∀ fsa fp bd sv,
        (ops.run_blast_ext fsa fp bd sv).1.read args.blast_output_path =
          fsa.read args.blast_output_path)
    (e : BlastError)
    (herr : (do_blast ops tempDirName args fs).2 = .error e) :
    (do_blast ops tempDirName args fs).1.read args.blast_output_path =
      fs.read args.blast_output_path := by
  unfold do_blast at herr ⊢
  cases hre : ops.read_excel fs args.blast_input_path with
  | error e' => simp [hre]
  | ok table =>
    cases hbf : build_fasta table with
    | error e' => simp [hre, hbf]
    | ok fasta =>
      simp only [hre, hbf] at herr ⊢
      set fastaPath := args.fasta_path.getD (tempDirName ++ "/sequences.fasta")
        with hfp
      set fs1 := fs.write fastaPath fasta with hfs1
      set blastDir := args.blast_db_dir.getD tempDirName with hbd
      have hread1 : fs1.read args.blast_output_path =
          fs.read args.blast_output_path :=
        FS.read_write_ne fs fasta hfasta
      cases hdbres : ops.build_db fs1 fastaPath blastDir with
      | mk fs2 dbErr =>
        have hread2 : fs2.read args.blast_output_path =
            fs.read args.blast_output_path := by
          have := hdb fs1 fastaPath blastDir
          rw [hdbres] at this
          exact this.trans hread1
        cases dbErr with
        | some e' =>
          simp only [hdbres]
          exact hread2
        | none =>
          cases hrunres :
              ops.run_blast_ext fs2 fastaPath blastDir args.blast_raw_output with
          | mk fs3 runRes =>
            have hread3 : fs3.read args.blast_output_path =
                fs.read args.blast_output_path := by
              have := hrun fs2 fastaPath blastDir args.blast_raw_output
              rw [hrunres] at this
              exact this.trans hread2
            cases runRes with
            | error e' =>
              simp only [hdbres, hrunres]
              exact hread3
            | ok raw =>
              simp only [hdbres, hrunres] at herr
              exact nomatch herr

/-- Operations for the C10 witness: database build succeeds without
touching the filesystem, the alignment run raises. -/
def opsFailRun : BlastOps :=
  { read_excel := fun _ _ => .ok [⟨"1ABC", "A", some "MKVL"⟩]
    build_db := fun fsa _ _ => (fsa, none)
    run_blast_ext := fun fsa _ _ _ => (fsa, .error .alignmentRun) }

/-- Default-path arguments: fasta and database go to the temporary
directory, distinct from the blast output path. -/
def argsDistinct : BlastArgs :=
  { blast_input_path := "search-output.xlsx"
    blast_output_path := "blast-output.xlsx"
    fasta_path := none
    blast_db_dir := none
    blast_raw_output := none
    blast_identity_cutoff := 4/5
    blast_similarity_cutoff := 4/5 }

/-- C10 witness: with distinct paths and a failing alignment run, the
blast output path is untouched (it did not exist before and still does
not exist). -/
theorem do_blast_error_preserves_output_witness :
    (do_blast opsFailRun "/tmp/run" argsDistinct []).1.read
        "blast-output.xlsx" =
      FS.read [] "blast-output.xlsx" :=
  do_blast_error_preserves_output opsFailRun "/tmp/run" argsDistinct []
    (by decide)
    (fun fsa fp bd => rfl)
    (fun fsa fp bd sv => rfl)
    .alignmentRun rfl

end Go2PDB
